import Mathlib

/-!
Shallow embedding of `delphinus/go-entity-generator` (`generator.go`).

The repository contains two revisions of the package.  The later revision is
the authoritative one: `New` wires a `query` stage into a `getMulti` stage.
Both revisions contain a `filter` function; the earlier revision's filter
additionally special-cases a bare `*datastore.ErrFieldMismatch` error.  We
embed the later pipeline (`query`, `getMulti`, `New`) and both filters
(`filter` for the later revision, `filterOld` for the earlier one).

Go errors are modelled by the inductive `GoErr`:
  * `GoErr.fieldMismatch f` models `*datastore.ErrFieldMismatch`;
  * `GoErr.multi es` models `appengine.MultiError` (a slice of per-item
    errors, each possibly nil, hence `List (Option GoErr)`);
  * `GoErr.stack e` models the wrapper produced by `errors.WithStack`;
  * `GoErr.other n` models any other opaque error.
A Go `error` value (which may be nil) is `Option GoErr`.

Entities (`[]interface{}`) are modelled by `List α` for a type parameter
`α`; datastore keys by a parameter `κ`.  A Go slice that may be nil (such as
`Unit.Entities`) is `Option (List α)`; `none` models the nil slice.

The datastore/goon collaborators are modelled by a `Store`: the keys the
query yields in pagination order, what the iterator reports once the keys
are exhausted (`datastore.Done` or an iteration error), and whether
`Iterator.Cursor()` fails at a given position.  A cursor is the absolute
position in the key stream, which is exactly the semantics
`q.Start(cursor)` provides for a fixed query result.  `GetMulti` is
modelled by a function from the fetched chunk to the optional error it
returns.  Executions are modelled with the context never cancelled and, for
the concurrent `getMulti` stage, with the realizable schedule in which each
hydration goroutine finishes before the next input unit is read.
-/

namespace EntityGen

/-- Go errors, as the type switches in `generator.go` distinguish them. -/
inductive GoErr : Type where
  /-- models `*datastore.ErrFieldMismatch` (field name as payload) -/
  | fieldMismatch (field : String) : GoErr
  /-- models `appengine.MultiError`: one optional error per item -/
  | multi (es : List (Option GoErr)) : GoErr
  /-- models the wrapper returned by `errors.WithStack` -/
  | stack (e : GoErr) : GoErr
  /-- models any other opaque error -/
  | other (code : Nat) : GoErr

/-- True exactly when the Go type assertion `err.(appengine.MultiError)`
succeeds.  A stack-wrapped MultiError does not match, as in Go. -/
def GoErr.isMulti : GoErr → Bool
  | .multi _ => true
  | _ => false

/-- True exactly when the Go type assertion `err.(*datastore.ErrFieldMismatch)`
succeeds. -/
def GoErr.isFieldMismatch : GoErr → Bool
  | .fieldMismatch _ => true
  | _ => false

/-- The `Unit` struct: `Entities []interface{}` (a possibly-nil slice,
hence `Option (List α)`) and `Err error`. -/
structure Unit (α : Type) : Type where
  entities : Option (List α)
  err : Option GoErr

/-- The `Options` struct of the later revision.  `Query` is not a field
here: the query's observable behaviour is the `Store` collaborator.
`Appender` receives `(entities, i, k, parentKey)`; the `ctx` argument
carries no data in the model. -/
structure Options (κ α : Type) : Type where
  Appender : List α → Nat → κ → Option κ → List α
  FetchLimit : Int
  IgnoreErrFieldMismatch : Bool
  ParentKey : Option κ

/-- The constant `defaultFetchLimit = 100`. -/
def defaultFetchLimit : Int := 100

/-- The model of the external datastore/goon collaborator seen through one
keys-only query: the keys in pagination order, what `Iterator.Next`
reports after the last key, and whether `Iterator.Cursor()` fails when
called with the iterator standing at a given absolute position. -/
structure Store (κ : Type) : Type where
  keys : List κ
  tailErr : Option GoErr
  cursorFail : Nat → Option GoErr

/-- A store in which iteration and cursor acquisition never fail. -/
def cleanStore {κ : Type} (keys : List κ) : Store κ :=
  ⟨keys, none, fun _ => none⟩

/-- Walk of the later revision's `filter`: the `for i` loop pairing each
entity with `mErr[i]` (the two lists have equal length at the call site).
`origEntities`/`origErr` are the function arguments, returned whole when a
non-tolerable per-item error is met. -/
def filterWalk {α : Type} (origEntities : List α) (origErr : GoErr)
    (acc : List α) : List α → List (Option GoErr) → List α × Option GoErr
  | [], _ => (acc, none)
  | _ :: _, [] => (acc, none)
  | e :: es, none :: ms => filterWalk origEntities origErr (acc ++ [e]) es ms
  | _ :: es, some m :: ms =>
    match m with
    | .fieldMismatch _ => filterWalk origEntities origErr acc es ms
    | _ => (origEntities, some origErr)

/-- The later revision's `filter` (the authoritative classifier):
a non-MultiError error is never filterable. -/
def filter {α : Type} (entities : List α) (err : Option GoErr) :
    List α × Option GoErr :=
  match err with
  | none => (entities, none)
  | some e =>
    if entities.isEmpty then (entities, some e)
    else
      match e with
      | .multi mErr =>
        if entities.length ≠ mErr.length then ([], none)
        else filterWalk entities e [] entities mErr
      | _ => (entities, some e)

/-- The earlier revision's `filter`: identical except that a bare
`*datastore.ErrFieldMismatch` (not inside a MultiError) is also treated as
filterable, yielding the empty filtered slice and no error. -/
def filterOld {α : Type} (entities : List α) (err : Option GoErr) :
    List α × Option GoErr :=
  match err with
  | none => (entities, none)
  | some e =>
    if entities.isEmpty then (entities, some e)
    else
      match e with
      | .multi mErr =>
        if entities.length ≠ mErr.length then ([], none)
        else filterWalk entities e [] entities mErr
      | .fieldMismatch _ => ([], none)
      | _ => (entities, some e)

/-- Result of the inner `for i := 0; i < o.FetchLimit; i++` loop of `query`:
either the keys ran out (`isDone`, with the entities built so far and the
iterator's final position), the chunk was filled (`isDone = false`), or
`Iterator.Next` returned an error other than `datastore.Done`. -/
inductive PullRes (κ α : Type) : Type where
  | ok (isDone : Bool) (entities : List α) (endPos : Nat) : PullRes κ α
  | fail (e : GoErr) : PullRes κ α

/-- The inner loop of `query`: starting with the iterator at absolute
position `pos`, loop index `i` and accumulated `acc`, perform up to `n`
further `Next` calls, feeding each key to the appender. -/
def pull {κ α : Type} (st : Store κ) (app : List α → Nat → κ → Option κ → List α)
    (pk : Option κ) : Nat → Nat → List α → Nat → PullRes κ α
  | pos, _, acc, 0 => .ok false acc pos
  | pos, i, acc, n + 1 =>
    match st.keys[pos]? with
    | some k => pull st app pk (pos + 1) (i + 1) (app acc i k pk) n
    | none =>
      match st.tailErr with
      | none => .ok true acc pos
      | some e => .fail e

/-- One execution of the goroutine body of `query`, in the run where the
context is never cancelled.  `cur` is the saved cursor (`nil` before the
first page); `fuel` bounds the number of outer-loop iterations (the Go
loop terminates on its own whenever `FetchLimit ≥ 1`, and `queryUnits`
supplies enough fuel for that case).  Returns the units sent on `in`, in
order; both error paths send `Unit{nil, errors.WithStack(err)}` and
return, and the `isDone` path sends the final chunk and returns. -/
def queryLoop {κ α : Type} (st : Store κ) (o : Options κ α) :
    Option Nat → Nat → List (Unit α)
  | _, 0 => []
  | cur, fuel + 1 =>
    match pull st o.Appender o.ParentKey (cur.getD 0) 0 [] o.FetchLimit.toNat with
    | .fail e => [⟨none, some (.stack e)⟩]
    | .ok isDone entities endPos =>
      if isDone then [⟨some entities, none⟩]
      else
        match st.cursorFail endPos with
        | some e => [⟨none, some (.stack e)⟩]
        | none => ⟨some entities, none⟩ :: queryLoop st o (some endPos) fuel

/-- The stream produced by the `query` stage (uncancelled execution).
`keys.length + 1` outer iterations always suffice when `FetchLimit ≥ 1`:
every non-final page consumes `FetchLimit` keys. -/
def queryUnits {κ α : Type} (st : Store κ) (o : Options κ α) : List (Unit α) :=
  queryLoop st o none (st.keys.length + 1)

/-- hydrate is the single goroutine body spawned by `getMulti` for one
error-free input unit: run `GetMulti` on the chunk and emit the resulting
unit.  `fetch` models `goon.Goon.GetMulti` for this execution: the error it
returns on each chunk. -/
def hydrate {α : Type} (fetch : Option (List α) → Option GoErr) (ig : Bool)
    (u : Unit α) : Unit α :=
  match fetch u.entities with
  | none => u
  | some e =>
    if !ig then ⟨none, some (.stack e)⟩
    else
      match filter (u.entities.getD []) (some e) with
      | (filtered, none) => ⟨some filtered, none⟩
      | (_, some e2) => ⟨none, some (.stack e2)⟩

/-- The stream produced by the `getMulti` stage from input stream `us`,
in the realizable schedule where each spawned hydration goroutine emits
its unit before the consumer loop reads the next input.  An input unit
that already carries an error is forwarded (re-wrapped) and the loop
returns; an error produced by a hydration goroutine does not stop the
loop. -/
def getMultiUnits {α : Type} (fetch : Option (List α) → Option GoErr)
    (ig : Bool) : List (Unit α) → List (Unit α)
  | [] => []
  | u :: us =>
    match u.err with
    | some e => [⟨none, some (.stack e)⟩]
    | none => hydrate fetch ig u :: getMultiUnits fetch ig us

/-- The caller-visible `Options` struct after `New` returns: `New` writes
`defaultFetchLimit` into the caller's struct through the pointer when
`FetchLimit == 0`, and leaves it untouched otherwise.  These are also the
options the two stages then run with. -/
def optionsAfterNew {κ α : Type} (o : Options κ α) : Options κ α :=
  if o.FetchLimit = 0 then { o with FetchLimit := defaultFetchLimit } else o

/-- The fetch limit the pipeline runs with, for a possibly-nil `Options`
argument to `New` (`none` models the `o == nil` branch). -/
def newFetchLimit {κ α : Type} (o : Option (Options κ α)) : Int :=
  match o with
  | none => defaultFetchLimit
  | some oo => (optionsAfterNew oo).FetchLimit

/-- The pipeline `New` builds for a non-nil `Options`: normalize the
options, then wire `query` into `getMulti`. -/
def NewUnits {κ α : Type} (st : Store κ)
    (fetch : Option (List α) → Option GoErr) (o : Options κ α) :
    List (Unit α) :=
  getMultiUnits fetch (optionsAfterNew o).IgnoreErrFieldMismatch
    (queryUnits st (optionsAfterNew o))

/-- Total number of entities carried by the error-free units of a stream. -/
def hydratedCount {α : Type} : List (Unit α) → Nat
  | [] => 0
  | u :: us =>
    (if u.err.isNone then (u.entities.getD []).length else 0) + hydratedCount us

/-- Entities built by feeding the keys `ks` to the appender in order,
starting at loop index `i` — the specification-side description of what
the inner loop of `query` accumulates. -/
def appendKeys {κ α : Type} (app : List α → Nat → κ → Option κ → List α)
    (pk : Option κ) : List α → Nat → List κ → List α
  | acc, _, [] => acc
  | acc, i, k :: ks => appendKeys app pk (app acc i k pk) (i + 1) ks

/-! Concrete inputs used by witnesses and counterexamples. -/

/-- Options with a one-stub-per-key appender and chunk size 2. -/
def oC1 : Options Nat Nat := ⟨fun acc _ k _ => acc ++ [k], 2, false, none⟩

/-- Options with a one-stub-per-key appender and chunk size 2. -/
def oC2 : Options Nat Nat := ⟨fun acc _ k _ => acc ++ [k], 2, false, none⟩

/-- Options with a one-stub-per-key appender and chunk size 1. -/
def oC3 : Options Nat Nat := ⟨fun acc _ k _ => acc ++ [k], 1, false, none⟩

/-- GetMulti behaviour that fails on the chunk `[10]` and succeeds on
every other chunk. -/
def fetchC3 : Option (List Nat) → Option GoErr :=
  fun oe => if oe = some [10] then some (.other 7) else none

/-- Options whose `FetchLimit` is zero. -/
def oC4 : Options Nat Nat := ⟨fun acc _ _ _ => acc, 0, false, none⟩

/-- Options whose `FetchLimit` is the non-default value 5. -/
def oC4b : Options Nat Nat := ⟨fun acc _ _ _ => acc, 5, false, none⟩

/-- Options with a one-stub-per-key appender and chunk size 2. -/
def oC10 : Options Nat Nat := ⟨fun acc _ k _ => acc ++ [k], 2, false, none⟩

/-! Helper lemmas about filterWalk and counting. -/

theorem filterWalk_tolerable {α : Type} (orig : List α) (origErr : GoErr) :
    ∀ (es : List α) (ms : List (Option GoErr)) (acc : List α),
      (∀ me ∈ ms, me.all GoErr.isFieldMismatch = true) →
      filterWalk orig origErr acc es ms
        = (acc ++ ((es.zip ms).filter fun p => p.2.isNone).map Prod.fst, none) := by
  intro es
  induction es with
  | nil => intro ms acc _; simp [filterWalk]
  | cons e es ih =>
    intro ms acc hms
    cases ms with
    | nil => simp [filterWalk]
    | cons m ms =>
      have hm : m.all GoErr.isFieldMismatch = true := hms m (List.mem_cons_self m ms)
      have hms' : ∀ me ∈ ms, me.all GoErr.isFieldMismatch = true :=
        fun me hme => hms me (List.mem_cons_of_mem m hme)
      cases m with
      | none =>
        rw [filterWalk, ih ms (acc ++ [e]) hms']
        simp
      | some g =>
        cases g with
        | fieldMismatch f =>
          rw [filterWalk, ih ms acc hms']
          simp [filterWalk]
        | multi es2 => simp [Option.all, GoErr.isFieldMismatch] at hm
        | stack e2 => simp [Option.all, GoErr.isFieldMismatch] at hm
        | other n => simp [Option.all, GoErr.isFieldMismatch] at hm

theorem countP_isNone_add_isSome (ms : List (Option GoErr)) :
    ms.countP (fun me => me.isNone) + ms.countP (fun me => me.isSome)
      = ms.length := by
  induction ms with
  | nil => simp
  | cons m ms ih =>
    cases m <;> simp [List.countP_cons] <;> omega

theorem countP_zip_snd {α β : Type} (p : β → Bool) :
    ∀ (xs : List α) (ys : List β), ys.length = xs.length →
      (xs.zip ys).countP (fun q => p q.2) = ys.countP p := by
  intro xs
  induction xs with
  | nil =>
    intro ys hlen
    rw [List.length_nil, List.length_eq_zero] at hlen
    subst hlen
    simp
  | cons x xs ih =>
    intro ys hlen
    cases ys with
    | nil => simp at hlen
    | cons y ys =>
      simp only [List.length_cons, Nat.succ.injEq] at hlen
      simp [List.countP_cons, ih ys hlen]

/-! Claims about the classifier. -/

/-- C5: for every entity list and every error that is not an
`appengine.MultiError`, the (authoritative) `filter` returns the original
entity list and the original error unchanged.  `filter` does not read
`IgnoreErrFieldMismatch` at all, so the result holds regardless of that
flag. -/
theorem filter_nonMulti_unchanged {α : Type} (entities : List α) (e : GoErr)
    (h : e.isMulti = false) :
    filter entities (some e) = (entities, some e) := by
  cases e with
  | multi es => simp [GoErr.isMulti] at h
  | fieldMismatch f => cases entities <;> simp [filter]
  | stack e2 => cases entities <;> simp [filter]
  | other n => cases entities <;> simp [filter]

theorem filter_nonMulti_unchanged_witness :
    (GoErr.other 3).isMulti = false
      ∧ filter [7, 8] (some (.other 3)) = ([7, 8], some (.other 3)) :=
  ⟨rfl, filter_nonMulti_unchanged [7, 8] (.other 3) rfl⟩

/-- C6: for a non-empty chunk of `n` entities and a MultiError of length
`n` whose non-nil entries are all `*datastore.ErrFieldMismatch`, `filter`
returns exactly the entities whose per-item error is nil, in order, with
no residual error; the filtered length is `n` minus the number of non-nil
(i.e. field-mismatch) entries. -/
theorem filter_tolerable_multi {α : Type} (entities : List α)
    (mErr : List (Option GoErr))
    (hne : entities ≠ []) (hlen : mErr.length = entities.length)
    (hshape : ∀ me ∈ mErr, me.all GoErr.isFieldMismatch = true) :
    filter entities (some (.multi mErr))
      = (((entities.zip mErr).filter fun p => p.2.isNone).map Prod.fst, none)
    ∧ (((entities.zip mErr).filter fun p => p.2.isNone).map Prod.fst).length
      = entities.length - mErr.countP (fun me => me.isSome) := by
  constructor
  · simp only [filter]
    rw [if_neg (by simp [hne]), if_neg (by omega)]
    exact filterWalk_tolerable entities (.multi mErr) entities mErr [] hshape
  · rw [List.length_map, ← List.countP_eq_length_filter,
      countP_zip_snd _ _ _ hlen]
    show mErr.countP (fun me => me.isNone)
      = entities.length - mErr.countP (fun me => me.isSome)
    have h1 := countP_isNone_add_isSome mErr
    omega

theorem filter_tolerable_multi_witness :
    (([10, 20, 30] : List Nat) ≠ []
      ∧ ([none, some (.fieldMismatch "f"), none] : List (Option GoErr)).length = 3
      ∧ ∀ me ∈ ([none, some (.fieldMismatch "f"), none] : List (Option GoErr)),
          me.all GoErr.isFieldMismatch = true)
    ∧ filter ([10, 20, 30] : List Nat)
        (some (.multi [none, some (.fieldMismatch "f"), none]))
        = ([10, 30], none) := by
  refine ⟨⟨by simp, rfl, by decide⟩, ?_⟩
  have h := filter_tolerable_multi ([10, 20, 30] : List Nat)
    [none, some (.fieldMismatch "f"), none] (by simp) rfl (by decide)
  rw [h.1]
  rfl

/-- C7: for a non-empty chunk and a MultiError whose length differs from
the chunk length, `filter` drops the whole chunk: it returns the empty
list and no residual error. -/
theorem filter_length_mismatch {α : Type} (entities : List α)
    (mErr : List (Option GoErr))
    (hne : entities ≠ []) (hlen : entities.length ≠ mErr.length) :
    filter entities (some (.multi mErr)) = ([], none) := by
  simp only [filter]
  rw [if_neg (by simp [hne]), if_pos hlen]

theorem filter_length_mismatch_witness :
    (([1, 2, 3] : List Nat) ≠ [] ∧ (3 : Nat) ≠ 1)
      ∧ filter [1, 2, 3] (some (.multi [some (.other 0)])) = ([], none) :=
  ⟨⟨by simp, by decide⟩,
    filter_length_mismatch [1, 2, 3] [some (.other 0)] (by simp) (by decide)⟩

/-- C9: the two revisions of `filter` are not extensionally equal: on a
non-empty chunk with a bare (non-batch) field-mismatch error the earlier
revision returns the empty chunk and nil error while the later one returns
both unchanged; on every input whose error is a MultiError the two
revisions agree. -/
theorem filter_two_revisions :
    (filterOld [0] (some (.fieldMismatch "x")) = (([] : List Nat), none)
      ∧ filter [0] (some (.fieldMismatch "x"))
          = ([0], some (.fieldMismatch "x")))
    ∧ ∀ (α : Type) (entities : List α) (mErr : List (Option GoErr)),
        filterOld entities (some (.multi mErr))
          = filter entities (some (.multi mErr)) := by
  refine ⟨⟨rfl, rfl⟩, fun α entities mErr => rfl⟩

theorem filter_two_revisions_witness :
    filterOld ([1, 2] : List Nat) (some (.multi [none, none]))
      = filter ([1, 2] : List Nat) (some (.multi [none, none])) :=
  filter_two_revisions.2 Nat [1, 2] [none, none]

/-! Helper lemmas about the query stage on an error-free store. -/

theorem cleanStore_keys {κ : Type} (keys : List κ) :
    (cleanStore keys).keys = keys := rfl

theorem cleanStore_tailErr {κ : Type} (keys : List κ) :
    (cleanStore keys).tailErr = none := rfl

theorem cleanStore_cursorFail {κ : Type} (keys : List κ) (n : Nat) :
    (cleanStore keys).cursorFail n = none := rfl

theorem appendKeys_length {κ α : Type}
    (app : List α → Nat → κ → Option κ → List α) (pk : Option κ)
    (happ : ∀ acc i k, (app acc i k pk).length = acc.length + 1) :
    ∀ (ks : List κ) (acc : List α) (i : Nat),
      (appendKeys app pk acc i ks).length = acc.length + ks.length := by
  intro ks
  induction ks with
  | nil => intro acc i; simp [appendKeys]
  | cons k ks ih =>
    intro acc i
    rw [appendKeys, ih (app acc i k pk) (i + 1), happ acc i k]
    simp only [List.length_cons]
    omega

theorem pull_clean_full {κ α : Type} (keys : List κ)
    (app : List α → Nat → κ → Option κ → List α) (pk : Option κ) :
    ∀ (n pos i : Nat) (acc : List α), pos + n ≤ keys.length →
      pull (cleanStore keys) app pk pos i acc n
        = .ok false (appendKeys app pk acc i ((keys.drop pos).take n))
            (pos + n) := by
  intro n
  induction n with
  | zero => intro pos i acc _; simp [pull, appendKeys]
  | succ n ih =>
    intro pos i acc h
    have hpos : pos < keys.length := by omega
    rw [pull]
    simp only [cleanStore_keys, List.getElem?_eq_getElem hpos]
    rw [ih (pos + 1) (i + 1) (app acc i keys[pos] pk) (by omega)]
    rw [List.drop_eq_getElem_cons hpos, List.take_succ_cons]
    rw [appendKeys]
    congr 1
    omega

theorem pull_clean_done {κ α : Type} (keys : List κ)
    (app : List α → Nat → κ → Option κ → List α) (pk : Option κ) :
    ∀ (n pos i : Nat) (acc : List α),
      keys.length < pos + n → pos ≤ keys.length →
      pull (cleanStore keys) app pk pos i acc n
        = .ok true (appendKeys app pk acc i (keys.drop pos)) keys.length := by
  intro n
  induction n with
  | zero => intro pos i acc h1 h2; omega
  | succ n ih =>
    intro pos i acc h1 h2
    rcases Nat.lt_or_ge pos keys.length with hpos | hpos
    · rw [pull]
      simp only [cleanStore_keys, List.getElem?_eq_getElem hpos]
      rw [ih (pos + 1) (i + 1) (app acc i keys[pos] pk) (by omega) (by omega)]
      rw [List.drop_eq_getElem_cons hpos, appendKeys]
    · have hpe : pos = keys.length := by omega
      subst hpe
      rw [pull]
      simp only [cleanStore_keys, cleanStore_tailErr,
        List.getElem?_eq_none (Nat.le_refl _)]
      rw [List.drop_length]
      rfl

theorem queryLoop_clean_length {κ α : Type} (keys : List κ) (o : Options κ α)
    (lim : Nat) (hle : o.FetchLimit.toNat = lim) (hlim : 1 ≤ lim) :
    ∀ (fuel : Nat) (cur : Option Nat),
      cur.getD 0 ≤ keys.length → keys.length - cur.getD 0 < fuel →
      (queryLoop (cleanStore keys) o cur fuel).length
        = (keys.length - cur.getD 0) / lim + 1 := by
  intro fuel
  induction fuel with
  | zero => intro cur h1 h2; omega
  | succ f ih =>
    intro cur h1 h2
    rcases Nat.lt_or_ge (cur.getD 0 + lim) (keys.length + 1) with hc | hc
    · have hp := pull_clean_full keys o.Appender o.ParentKey
        lim (cur.getD 0) 0 [] (by omega)
      rw [queryLoop, hle, hp]
      simp only [Bool.false_eq_true, if_false, cleanStore_cursorFail,
        List.length_cons]
      have ha : (some (cur.getD 0 + lim)).getD 0 ≤ keys.length := by
        simp only [Option.getD_some]
        omega
      have hb : keys.length - (some (cur.getD 0 + lim)).getD 0 < f := by
        simp only [Option.getD_some]
        omega
      rw [ih _ ha hb]
      simp only [Option.getD_some]
      have harith : keys.length - (cur.getD 0 + lim)
          = keys.length - cur.getD 0 - lim := by omega
      rw [harith, Nat.div_eq_sub_div (show 0 < lim by omega)
        (show lim ≤ keys.length - cur.getD 0 by omega)]
    · have hp := pull_clean_done keys o.Appender o.ParentKey
        lim (cur.getD 0) 0 [] (by omega) h1
      rw [queryLoop, hle, hp]
      simp only [if_true, List.length_singleton]
      rw [Nat.div_eq_of_lt (by omega)]

theorem queryLoop_clean_count {κ α : Type} (keys : List κ) (o : Options κ α)
    (lim : Nat) (hle : o.FetchLimit.toNat = lim) (hlim : 1 ≤ lim)
    (happ : ∀ acc i k,
      (o.Appender acc i k o.ParentKey).length = acc.length + 1) :
    ∀ (fuel : Nat) (cur : Option Nat),
      cur.getD 0 ≤ keys.length → keys.length - cur.getD 0 < fuel →
      hydratedCount (queryLoop (cleanStore keys) o cur fuel)
        = keys.length - cur.getD 0 := by
  intro fuel
  induction fuel with
  | zero => intro cur h1 h2; omega
  | succ f ih =>
    intro cur h1 h2
    rcases Nat.lt_or_ge (cur.getD 0 + lim) (keys.length + 1) with hc | hc
    · have hp := pull_clean_full keys o.Appender o.ParentKey
        lim (cur.getD 0) 0 [] (by omega)
      rw [queryLoop, hle, hp]
      simp only [Bool.false_eq_true, if_false, cleanStore_cursorFail]
      rw [hydratedCount]
      have ha : (some (cur.getD 0 + lim)).getD 0 ≤ keys.length := by
        simp only [Option.getD_some]
        omega
      have hb : keys.length - (some (cur.getD 0 + lim)).getD 0 < f := by
        simp only [Option.getD_some]
        omega
      rw [ih _ ha hb]
      simp only [Option.getD_some, Option.isNone_none, if_true, Option.getD]
      rw [appendKeys_length o.Appender o.ParentKey happ]
      rw [List.length_take, List.length_drop]
      simp only [List.length_nil]
      omega
    · have hp := pull_clean_done keys o.Appender o.ParentKey
        lim (cur.getD 0) 0 [] (by omega) h1
      rw [queryLoop, hle, hp]
      simp only [if_true]
      rw [hydratedCount, hydratedCount]
      simp only [Option.isNone_none, if_true, Option.getD]
      rw [appendKeys_length o.Appender o.ParentKey happ]
      rw [List.length_drop]
      simp only [List.length_nil]
      omega

theorem pull_clean_ok {κ α : Type} (keys : List κ)
    (app : List α → Nat → κ → Option κ → List α) (pk : Option κ) :
    ∀ (n pos i : Nat) (acc : List α),
      ∃ d ents ep, pull (cleanStore keys) app pk pos i acc n
        = .ok d ents ep := by
  intro n
  induction n with
  | zero => intro pos i acc; exact ⟨false, acc, pos, rfl⟩
  | succ n ih =>
    intro pos i acc
    rcases hk : (cleanStore keys).keys[pos]? with _ | k
    · refine ⟨true, acc, pos, ?_⟩
      rw [pull, hk]
      rfl
    · obtain ⟨d, ents, ep, hrec⟩ := ih (pos + 1) (i + 1) (app acc i k pk)
      refine ⟨d, ents, ep, ?_⟩
      rw [pull, hk]
      exact hrec

theorem queryLoop_clean_err_none {κ α : Type} (keys : List κ)
    (o : Options κ α) :
    ∀ (fuel : Nat) (cur : Option Nat),
      ∀ u ∈ queryLoop (cleanStore keys) o cur fuel, u.err = none := by
  intro fuel
  induction fuel with
  | zero => intro cur u hu; simp [queryLoop] at hu
  | succ f ih =>
    intro cur u hu
    obtain ⟨d, ents, ep, hp⟩ := pull_clean_ok keys o.Appender o.ParentKey
      o.FetchLimit.toNat (cur.getD 0) 0 []
    rw [queryLoop, hp] at hu
    cases d with
    | true =>
      simp only [if_true, List.mem_singleton] at hu
      subst hu
      rfl
    | false =>
      simp only [Bool.false_eq_true, if_false, cleanStore_cursorFail,
        List.mem_cons] at hu
      rcases hu with hu | hu
      · subst hu; rfl
      · exact ih (some ep) u hu

/-! Helper lemmas about the getMulti stage. -/

theorem getMulti_allok_id {α : Type} (ig : Bool) :
    ∀ us : List (Unit α), (∀ u ∈ us, u.err = none) →
      getMultiUnits (fun _ => none) ig us = us := by
  intro us
  induction us with
  | nil => intro _; rfl
  | cons u us ih =>
    intro h
    have hu : u.err = none := h u (List.mem_cons_self u us)
    simp only [getMultiUnits, hu, hydrate]
    rw [ih (fun v hv => h v (List.mem_cons_of_mem u hv))]

theorem hydrate_shape {α : Type} (fetch : Option (List α) → Option GoErr)
    (ig : Bool) (u : Unit α) (hu : u.err = none) :
    (hydrate fetch ig u).err = none ∨ (hydrate fetch ig u).entities = none := by
  rcases hf : fetch u.entities with _ | e
  · left
    simp only [hydrate, hf]
    exact hu
  · cases ig with
    | false =>
      right
      simp only [hydrate, hf]
      rfl
    | true =>
      rcases hfil : filter (u.entities.getD []) (some e) with ⟨filtered, fe⟩
      cases fe with
      | none => left; simp only [hydrate, hf, hfil]; rfl
      | some e2 => right; simp only [hydrate, hf, hfil]; rfl

theorem queryLoop_unit_shape {κ α : Type} (st : Store κ) (o : Options κ α) :
    ∀ (fuel : Nat) (cur : Option Nat),
      ∀ u ∈ queryLoop st o cur fuel, u.err = none ∨ u.entities = none := by
  intro fuel
  induction fuel with
  | zero => intro cur u hu; simp [queryLoop] at hu
  | succ f ih =>
    intro cur u hu
    rw [queryLoop] at hu
    cases hp : pull st o.Appender o.ParentKey (cur.getD 0) 0 []
        o.FetchLimit.toNat with
    | fail e =>
      rw [hp] at hu
      simp only [List.mem_singleton] at hu
      subst hu
      right
      rfl
    | ok d ents ep =>
      rw [hp] at hu
      cases d with
      | true =>
        simp only [if_true, List.mem_singleton] at hu
        subst hu
        left
        rfl
      | false =>
        simp only [Bool.false_eq_true, if_false] at hu
        cases hcf : st.cursorFail ep with
        | some e2 =>
          rw [hcf] at hu
          simp only [List.mem_singleton] at hu
          subst hu
          right
          rfl
        | none =>
          rw [hcf] at hu
          simp only [List.mem_cons] at hu
          rcases hu with hu | hu
          · subst hu; left; rfl
          · exact ih (some ep) u hu

theorem getMultiUnits_unit_shape {α : Type}
    (fetch : Option (List α) → Option GoErr) (ig : Bool) :
    ∀ us : List (Unit α),
      ∀ u ∈ getMultiUnits fetch ig us, u.err = none ∨ u.entities = none := by
  intro us
  induction us with
  | nil => intro u hu; simp [getMultiUnits] at hu
  | cons v us ih =>
    intro u hu
    rw [getMultiUnits] at hu
    rcases hv : v.err with _ | e
    · rw [hv] at hu
      simp only [List.mem_cons] at hu
      rcases hu with hu | hu
      · subst hu
        exact hydrate_shape fetch ig v hv
      · exact ih u hu
    · rw [hv] at hu
      simp only [List.mem_singleton] at hu
      subst hu
      right
      rfl

/-! Claims about the pipeline. -/

/-- C1: for a query matching `keys.length` records on an error-free store,
an appender that appends exactly one stub per key, and a `GetMulti` that
always succeeds, the sum of the entity counts over the error-free units of
the pipeline built by `New` equals the number of matching records, for
every chunk size of at least 1. -/
theorem New_hydrated_count {κ α : Type} (keys : List κ) (o : Options κ α)
    (hC : 1 ≤ o.FetchLimit)
    (happ : ∀ acc i k,
      (o.Appender acc i k o.ParentKey).length = acc.length + 1) :
    hydratedCount (NewUnits (cleanStore keys) (fun _ => none) o)
      = keys.length := by
  have ho : optionsAfterNew o = o := by
    rw [optionsAfterNew, if_neg (by omega)]
  rw [NewUnits, ho]
  rw [getMulti_allok_id o.IgnoreErrFieldMismatch (queryUnits (cleanStore keys) o)
    (fun u hu => queryLoop_clean_err_none keys o _ none u hu)]
  rw [queryUnits, queryLoop_clean_count keys o o.FetchLimit.toNat rfl
    (by omega) happ ((cleanStore keys).keys.length + 1) none (by simp)
    (by simp [cleanStore_keys])]
  simp

theorem New_hydrated_count_witness :
    ((1 : Int) ≤ oC1.FetchLimit
      ∧ ∀ (acc : List Nat) (i k : Nat),
          (oC1.Appender acc i k oC1.ParentKey).length = acc.length + 1)
    ∧ hydratedCount (NewUnits (cleanStore ([10, 20, 30] : List Nat))
        (fun _ => none) oC1) = 3 :=
  ⟨⟨by decide, fun acc i k => by simp [oC1]⟩,
    New_hydrated_count [10, 20, 30] oC1 (by decide)
      (fun acc i k => by simp [oC1])⟩

/-- C2 (counterexample): with 2 matching records, chunk size 2 and a
one-stub-per-key appender, the query stage emits 2 units (one full chunk
and the final empty chunk), not `ceil(2/2) = 1` as the claim states. -/
theorem queryUnits_ceil_counterexample :
    (queryUnits (cleanStore ([10, 20] : List Nat)) oC2).length ≠ 1 := by
  decide

/-- C2 (amended): with `N` matching records on an error-free store and
chunk size `C ≥ 1`, the query stage emits `N / C + 1` units: one unit per
full chunk of `C` keys plus one final short (possibly empty) chunk.  This
equals `ceil(N/C)` exactly when `C` does not divide `N`, and is
`ceil(N/C) + 1` when `C` divides `N` (in particular one unit for `N = 0`).
The count does not depend on the appender. -/
theorem queryUnits_chunk_count {κ α : Type} (keys : List κ) (o : Options κ α)
    (hC : 1 ≤ o.FetchLimit)
    (happ : ∀ acc i k,
      (o.Appender acc i k o.ParentKey).length = acc.length + 1) :
    (queryUnits (cleanStore keys) o).length
      = keys.length / o.FetchLimit.toNat + 1 := by
  rw [queryUnits, queryLoop_clean_length keys o o.FetchLimit.toNat rfl
    (by omega) ((cleanStore keys).keys.length + 1) none (by simp)
    (by simp [cleanStore_keys])]
  simp

theorem queryUnits_chunk_count_witness :
    ((1 : Int) ≤ oC2.FetchLimit
      ∧ ∀ (acc : List Nat) (i k : Nat),
          (oC2.Appender acc i k oC2.ParentKey).length = acc.length + 1)
    ∧ (queryUnits (cleanStore ([10, 20, 30] : List Nat)) oC2).length = 2 :=
  ⟨⟨by decide, fun acc i k => by simp [oC2]⟩,
    queryUnits_chunk_count [10, 20, 30] oC2 (by decide)
      (fun acc i k => by simp [oC2])⟩

/-- C3 (counterexample): on a store with records `[10, 20]`, chunk size 1,
and a `GetMulti` that fails on the chunk `[10]` and succeeds elsewhere,
the pipeline built by `New` emits the error unit first and then two more
units (`[20]` and the final empty chunk), refuting the claim that no
further unit follows an error-carrying unit. -/
theorem error_unit_not_terminal_counterexample :
    (NewUnits (cleanStore ([10, 20] : List Nat)) fetchC3 oC3).get? 0
        = some ⟨none, some (.stack (.other 7))⟩
      ∧ (NewUnits (cleanStore ([10, 20] : List Nat)) fetchC3 oC3).get? 1
        = some ⟨some [20], none⟩ := ⟨rfl, rfl⟩

/-- C3 (amended): an error unit arriving on `getMulti`'s input (produced
by the query stage) is forwarded re-wrapped and terminates the output
stream: nothing follows it.  An error produced by a hydration goroutine
itself, however, does not stop the consumer loop, so units of other
chunks may still follow it (see the counterexample). -/
theorem getMulti_stops_on_input_error {α : Type}
    (fetch : Option (List α) → Option GoErr) (ig : Bool)
    (ents : Option (List α)) (e : GoErr) (us : List (Unit α)) :
    getMultiUnits fetch ig (⟨ents, some e⟩ :: us)
      = [⟨none, some (.stack e)⟩] := rfl

theorem getMulti_stops_on_input_error_witness :
    getMultiUnits (fun _ => none) false
        ((⟨some [1], some (.other 3)⟩ : Unit Nat) :: [⟨some [2], none⟩])
      = [⟨none, some (.stack (.other 3))⟩] :=
  getMulti_stops_on_input_error (fun _ => none) false (some [1]) (.other 3)
    [⟨some [2], none⟩]

/-- C4 (counterexample): `New` writes the default fetch limit through the
caller's `Options` pointer when `FetchLimit` is zero, so the caller's
struct after `New` differs from the one passed in: the claim that no field
of the caller-supplied Options is ever written fails. -/
theorem new_mutates_options_counterexample : optionsAfterNew oC4 ≠ oC4 := by
  intro h
  have h2 := congrArg Options.FetchLimit h
  have h3 : (optionsAfterNew oC4).FetchLimit = 100 := rfl
  have h4 : oC4.FetchLimit = 0 := rfl
  rw [h3, h4] at h2
  exact absurd h2 (by decide)

/-- C4 (amended): `New` writes to the caller-supplied Options only in the
case `FetchLimit == 0` (where it stores the default 100 into that field);
whenever `FetchLimit` is non-zero the caller's Options, all fields
included, is left unchanged. -/
theorem new_preserves_options_of_nonzero {κ α : Type} (o : Options κ α)
    (h : o.FetchLimit ≠ 0) : optionsAfterNew o = o := by
  rw [optionsAfterNew, if_neg h]

theorem new_preserves_options_witness :
    oC4b.FetchLimit ≠ 0 ∧ optionsAfterNew oC4b = oC4b :=
  ⟨by decide, new_preserves_options_of_nonzero oC4b (by decide)⟩

/-- C8: when `New` receives a nil Options, or an Options whose
`FetchLimit` is zero, the pipeline runs with the documented default chunk
size 100; in particular the limit is positive, so every fetch loop
attempts at least one `Next` call (no zero-length fetches). -/
theorem newFetchLimit_default {κ α : Type} (o : Option (Options κ α))
    (h : o = none ∨ ∃ oo, o = some oo ∧ oo.FetchLimit = 0) :
    newFetchLimit o = 100 ∧ 0 < (newFetchLimit o).toNat := by
  rcases h with rfl | ⟨oo, rfl, hz⟩
  · exact ⟨rfl, by show 0 < (100 : Int).toNat; decide⟩
  · have h5 : newFetchLimit (some oo) = 100 := by
      rw [newFetchLimit, optionsAfterNew, if_pos hz]
      rfl
    exact ⟨h5, by rw [h5]; decide⟩

theorem newFetchLimit_default_witness :
    ((none : Option (Options Nat Nat)) = none
      ∨ ∃ oo, (none : Option (Options Nat Nat)) = some oo
          ∧ oo.FetchLimit = 0)
    ∧ newFetchLimit (none : Option (Options Nat Nat)) = 100
    ∧ 0 < (newFetchLimit (none : Option (Options Nat Nat))).toNat :=
  ⟨Or.inl rfl, newFetchLimit_default none (Or.inl rfl)⟩

/-- C10: every unit emitted by the query stage, and every unit emitted by
the getMulti stage, either carries no error or carries a nil entities
slice: a unit with a non-nil error has nil entities, and a unit with a
non-nil entities slice has no error.  This holds for every store
(including failing ones), every options value, every `GetMulti` behaviour
and every input stream. -/
theorem units_err_entities_exclusive {κ α : Type} (st : Store κ)
    (o : Options κ α) (fetch : Option (List α) → Option GoErr) (ig : Bool)
    (us : List (Unit α)) :
    (∀ u ∈ queryUnits st o,
      (u.err ≠ none → u.entities = none)
        ∧ (u.entities ≠ none → u.err = none))
    ∧ (∀ u ∈ getMultiUnits fetch ig us,
      (u.err ≠ none → u.entities = none)
        ∧ (u.entities ≠ none → u.err = none)) := by
  constructor
  · intro u hu
    have hd := queryLoop_unit_shape st o _ none u hu
    exact ⟨fun hne => hd.resolve_left hne, fun hent => hd.resolve_right hent⟩
  · intro u hu
    have hd := getMultiUnits_unit_shape fetch ig us u hu
    exact ⟨fun hne => hd.resolve_left hne, fun hent => hd.resolve_right hent⟩

theorem units_err_entities_exclusive_witness :
    ((⟨some [10], none⟩ : Unit Nat).err ≠ none
      → (⟨some [10], none⟩ : Unit Nat).entities = none)
    ∧ ((⟨some [10], none⟩ : Unit Nat).entities ≠ none
      → (⟨some [10], none⟩ : Unit Nat).err = none) :=
  (units_err_entities_exclusive (cleanStore [10]) oC10 (fun _ => none)
    false []).1 ⟨some [10], none⟩ (by exact List.Mem.head _)

end EntityGen
